import Mathlib

/-!
Verification development for the expense-tracker program
(`src/expense_tracker.py`).

The program's data lives in comma-separated text lines and Python floats.
The embedding models text as `List Char` and monetary values as `ℚ`
(exact decimal arithmetic standing in for Python's binary floats; the
program only adds, subtracts and divides amounts, so the algebra is the
same).  File contents are a `List Char` stream; a missing file is `none`.
The current wall-clock instant (`datetime.datetime.now()`) is passed in
explicitly as a `Timestamp` value.
-/

namespace ExpenseTracker

/-! ## Character and string utilities (models of Python `str` methods) -/

/-- Whitespace characters stripped by Python `str.strip()` (ASCII subset;
the program's data never contains the exotic unicode spaces). -/
def isWS (c : Char) : Bool :=
  c == ' ' || c == '\t' || c == '\n' || c == '\r' || c == '\x0b' || c == '\x0c'

/-- Model of Python `str.strip()`: drop whitespace from both ends. -/
def strip (l : List Char) : List Char :=
  ((l.dropWhile isWS).reverse.dropWhile isWS).reverse

/-- Model of Python `str.split(sep)` for a single-character separator:
splitting the empty string gives one empty field, and each occurrence of
`sep` starts a new field. -/
def splitSep (sep : Char) : List Char → List (List Char)
  | [] => [[]]
  | c :: rest =>
    match splitSep sep rest with
    | [] => if c = sep then [[], []] else [[c]]
    | f :: fs => if c = sep then [] :: f :: fs else (c :: f) :: fs

/-- Join fields with a separator (inverse of `splitSep` on separator-free
fields); models how the program renders a record line. -/
def joinSep (sep : Char) : List (List Char) → List Char
  | [] => []
  | [f] => f
  | f :: fs => f ++ sep :: joinSep sep fs

/-! ## Decimal numerals -/

/-- Numeric value of a decimal digit character. -/
def digitVal (c : Char) : Nat := c.toNat - 48

/-- Value of a big-endian string of decimal digit characters. -/
def decCharsVal (l : List Char) : Nat :=
  l.foldl (fun a c => a * 10 + digitVal c) 0

/-- Little-endian decimal digits of `n`, with explicit fuel so that the
recursion is structural. -/
def natDigitsRev (fuel n : Nat) : List Nat :=
  match fuel with
  | 0 => []
  | fuel + 1 => if n = 0 then [] else n % 10 :: natDigitsRev fuel (n / 10)

/-- Decimal rendering of a natural number, as Python renders the integer
part of a float (no leading zeros, `0` for zero). -/
def natToChars (n : Nat) : List Char :=
  if n = 0 then ['0'] else ((natDigitsRev n n).reverse.map Nat.digitChar)

/-- Two zero-padded decimal digits, as in Python `"%02d"` formatting. -/
def pad2 (n : Nat) : List Char :=
  [Nat.digitChar (n / 10 % 10), Nat.digitChar (n % 10)]

/-- Four zero-padded decimal digits (`strftime` `%Y` for 4-digit years). -/
def pad4 (n : Nat) : List Char :=
  [Nat.digitChar (n / 1000 % 10), Nat.digitChar (n / 100 % 10),
   Nat.digitChar (n / 10 % 10), Nat.digitChar (n % 10)]

/-! ## Rational helpers: floor, truncation, 2-decimal rounding -/

/-- Python `int()`: truncation toward zero. -/
def pyInt (q : ℚ) : ℤ := if q < 0 then -⌊-q⌋ else ⌊q⌋

/-- The integer number of cents printed by `f"{x:.2f}"`: round to the
nearest hundredth (ties rounded up; Python's exact tie behavior depends
on the binary float below the decimal literal, which never matters for
the program's 2-decimal data). -/
def roundCents (q : ℚ) : ℤ := ⌊q * 100 + 1 / 2⌋

/-- A rational rounded to two decimal places, the value that survives a
save/load round trip of an amount. -/
def round2 (q : ℚ) : ℚ := (roundCents q : ℚ) / 100

/-- Digits of a (nonnegative) number of cents as `"I.FF"`. -/
def centsChars (n : Nat) : List Char :=
  natToChars (n / 100) ++ '.' :: pad2 (n % 100)

/-- Model of Python `f"{x:.2f}"` applied to the number of cents
`c = roundCents x`: optional minus sign, integer part, two decimals. -/
def formatCents (c : ℤ) : List Char :=
  (if c < 0 then ['-'] else []) ++ centsChars c.natAbs

/-- Model of Python `f"{x:.2f}"` on an amount. -/
def formatAmount (q : ℚ) : List Char := formatCents (roundCents q)

/-- Unsigned part of Python `float()` parsing restricted to plain decimal
notation (the only notation the program ever writes): digits with an
optional single decimal point and at least one digit. -/
def parseUnsigned (u : List Char) : Option ℚ :=
  match splitSep '.' u with
  | [ip] =>
      if !ip.isEmpty && ip.all Char.isDigit then some (decCharsVal ip : ℚ)
      else none
  | [ip, fp] =>
      if (!ip.isEmpty || !fp.isEmpty) && ip.all Char.isDigit && fp.all Char.isDigit then
        some ((decCharsVal ip : ℚ) + (decCharsVal fp : ℚ) / (10 : ℚ) ^ fp.length)
      else none
  | _ => none

/-- Model of Python `float(s)` on the amount field: surrounding whitespace
is ignored, an optional sign precedes a plain decimal numeral; anything
else fails (raises `ValueError` in the source). -/
def parseAmount (s : List Char) : Option ℚ :=
  match strip s with
  | [] => none
  | c :: r =>
    if c = '-' then (parseUnsigned r).map (fun v => -v)
    else if c = '+' then parseUnsigned r
    else parseUnsigned (c :: r)

/-! ## Timestamps -/

/-- A wall-clock instant with second resolution, the information content
of a parsed `"%Y-%m-%d %H:%M:%S"` string. -/
structure Timestamp where
  year : Nat
  month : Nat
  day : Nat
  hour : Nat
  minute : Nat
  second : Nat
deriving DecidableEq, Repr

/-- Gregorian leap-year rule used by Python's `calendar` module. -/
def isLeap (y : Nat) : Bool :=
  (y % 4 == 0 && y % 100 != 0) || y % 400 == 0

/-- Model of `calendar.monthrange(y, m)[1]` (days in the month); the
catch-all 30 mirrors the `except` fallback in `summarize_expenses`. -/
def monthrange_days (y m : Nat) : Nat :=
  match m with
  | 1 => 31
  | 2 => if isLeap y then 29 else 28
  | 3 => 31
  | 4 => 30
  | 5 => 31
  | 6 => 30
  | 7 => 31
  | 8 => 31
  | 9 => 30
  | 10 => 31
  | 11 => 30
  | 12 => 31
  | _ => 30

/-- The instants `datetime` accepts, restricted to 4-digit years (the
program always works with current dates, rendered as 4 digits). -/
def ValidTimestamp (t : Timestamp) : Prop :=
  1000 ≤ t.year ∧ t.year ≤ 9999 ∧ 1 ≤ t.month ∧ t.month ≤ 12 ∧
  1 ≤ t.day ∧ t.day ≤ monthrange_days t.year t.month ∧
  t.hour ≤ 23 ∧ t.minute ≤ 59 ∧ t.second ≤ 59

instance (t : Timestamp) : Decidable (ValidTimestamp t) := by
  unfold ValidTimestamp; infer_instance

/-- Model of `strftime("%Y-%m-%d %H:%M:%S")`. -/
def formatTimestamp (t : Timestamp) : List Char :=
  pad4 t.year ++ ('-' :: (pad2 t.month ++ ('-' :: (pad2 t.day ++
  (' ' :: (pad2 t.hour ++ (':' :: (pad2 t.minute ++ (':' :: pad2 t.second)))))))))

/-- Read one or (greedily) two digit characters, as `strptime`'s
`%m`, `%d`, `%H`, `%M`, `%S` directives match. -/
def readNum2 : List Char → Option (Nat × List Char)
  | [] => none
  | c1 :: rest =>
    if c1.isDigit then
      match rest with
      | c2 :: rest2 =>
          if c2.isDigit then some (digitVal c1 * 10 + digitVal c2, rest2)
          else some (digitVal c1, rest)
      | [] => some (digitVal c1, [])
    else none

/-- Read exactly four digit characters (`strptime` `%Y`). -/
def readYear4 : List Char → Option (Nat × List Char)
  | c1 :: c2 :: c3 :: c4 :: rest =>
    if c1.isDigit && c2.isDigit && c3.isDigit && c4.isDigit then
      some (((digitVal c1 * 10 + digitVal c2) * 10 + digitVal c3) * 10 + digitVal c4, rest)
    else none
  | _ => none

/-- Require a literal character. -/
def expectChar (c : Char) : List Char → Option (List Char)
  | [] => none
  | c1 :: rest => if c1 = c then some rest else none

/-- Model of `datetime.datetime.strptime(s, "%Y-%m-%d %H:%M:%S")`:
parse the six numeric fields with their literal separators, require the
whole string to be consumed, and apply `datetime`'s range validation
(month 1-12, day fitting the month, hour/minute/second in range).  Any
failure means the source raises `ValueError`, modelled as `none`. -/
def parseTimestamp (s : List Char) : Option Timestamp :=
  match readYear4 s with
  | none => none
  | some (y, s1) =>
  match expectChar '-' s1 with
  | none => none
  | some s2 =>
  match readNum2 s2 with
  | none => none
  | some (mo, s3) =>
  match expectChar '-' s3 with
  | none => none
  | some s4 =>
  match readNum2 s4 with
  | none => none
  | some (d, s5) =>
  match expectChar ' ' s5 with
  | none => none
  | some s6 =>
  match readNum2 s6 with
  | none => none
  | some (h, s7) =>
  match expectChar ':' s7 with
  | none => none
  | some s8 =>
  match readNum2 s8 with
  | none => none
  | some (mi, s9) =>
  match expectChar ':' s9 with
  | none => none
  | some s10 =>
  match readNum2 s10 with
  | none => none
  | some (sec, s11) =>
    if s11.isEmpty ∧ 1 ≤ y ∧ 1 ≤ mo ∧ mo ≤ 12 ∧ 1 ≤ d ∧ d ≤ monthrange_days y mo ∧
       h ≤ 23 ∧ mi ≤ 59 ∧ sec ≤ 59 then
      some ⟨y, mo, d, h, mi, sec⟩
    else none

/-! ## Program constants (`CORE_CATEGORIES`, `SAVINGS_CATEGORY`,
`SAVINGS_USE_CATEGORY` from the source) -/

def CORE_CATEGORIES : List (List Char) :=
  ["🍔 Food".data, "🏠 Home".data, "💼 Work".data, "🎉 Fun".data, "✨ Misc".data]

def SAVINGS_CATEGORY : List Char := "💰 Savings".data

def SAVINGS_USE_CATEGORY : List Char := "❌ Savings_Use".data

/-! ## The `Expense` record -/

/-- The `Expense` class: name, category, amount, timestamp string. -/
structure Expense where
  name : List Char
  category : List Char
  amount : ℚ
  timestamp : List Char
deriving DecidableEq, Repr

/-- The `Expense.__init__` constructor: a missing or empty (falsy)
timestamp argument is replaced by the current time formatted as
`"%Y-%m-%d %H:%M:%S"`.  `now` is the wall-clock instant at construction. -/
def mkExpense (name category : List Char) (amount : ℚ)
    (timestamp : Option (List Char)) (now : Timestamp) : Expense :=
  { name := name, category := category, amount := amount,
    timestamp :=
      match timestamp with
      | some t => if t.isEmpty then formatTimestamp now else t
      | none => formatTimestamp now }

/-! ## Record store: `load_expenses`, `save_all_expenses`, `delete_expense` -/

/-- Processing of one raw line inside the `load_expenses` loop: strip, skip
blank lines, split on commas, require at least 3 fields, parse the amount
(skipping the line on failure), take the 4th field as timestamp when
present.  Extra fields beyond the 4th are ignored by the source. -/
def parseLine (now : Timestamp) (rawLine : List Char) : Option Expense :=
  let line := strip rawLine
  if line.isEmpty then none
  else
    let parts := splitSep ',' line
    if parts.length ≥ 3 then
      match parseAmount (parts.getD 1 []) with
      | some amt =>
          some (mkExpense (parts.getD 0 []) (parts.getD 2 []) amt
            (if parts.length ≥ 4 then some (parts.getD 3 []) else none) now)
      | none => none
    else none

/-- `load_expenses`: a missing file (`none`) yields the empty list; file
content is split into lines and each line parsed, malformed lines being
skipped with a warning. -/
def load_expenses (file : Option (List Char)) (now : Timestamp) : List Expense :=
  match file with
  | none => []
  | some content => (splitSep '\n' content).filterMap (parseLine now)

/-- The line `f"{name},{amount:.2f},{category},{timestamp}\n"` written for
one expense (without the final newline). -/
def expenseLine (e : Expense) : List Char :=
  e.name ++ (',' :: (formatAmount e.amount ++ (',' :: (e.category ++
    (',' :: e.timestamp)))))

/-- `save_all_expenses`: overwrite the file with one line per record, in
order. -/
def save_all_expenses (expenses : List Expense) : List Char :=
  (expenses.map (fun e => expenseLine e ++ ['\n'])).flatten

/-- A user selection in the `delete_expense` prompt: the cancel sentinel
`'c'` or a number. -/
inductive DeleteSelection where
  | cancel : DeleteSelection
  | num : ℤ → DeleteSelection

/-- The store mutation performed by `delete_expense` for one user
selection: on an empty store or cancel nothing changes; a 1-based index is
converted to 0-based and, if in bounds, that record is removed (the code
then rewrites the file); an out-of-bounds number is reported invalid and
the store is untouched. -/
def delete_expense (store : List Expense) (sel : DeleteSelection) : List Expense :=
  if store.isEmpty then store
  else
    match sel with
    | .cancel => store
    | .num k =>
      let idx := k - 1
      if 0 ≤ idx ∧ idx < (store.length : ℤ) then store.eraseIdx idx.toNat
      else store

/-! ## Budget allocator (`get_total_money_and_calculate_budgets`) -/

/-- The budget computation of `get_total_money_and_calculate_budgets`
after the interactive input loops have produced `total_money` and
`savings_goal`: a negative remainder is clamped to a zero per-category
budget, otherwise the remainder is divided evenly over the five core
categories; the result maps the savings category to the goal and each
core category to the per-category amount, in insertion order. -/
def get_total_money_and_calculate_budgets (total_money savings_goal : ℚ) :
    List (List Char × ℚ) :=
  let remaining_for_spending := total_money - savings_goal
  let spending_budget_per_cat :=
    if remaining_for_spending < 0 then 0
    else remaining_for_spending / (CORE_CATEGORIES.length : ℚ)
  (SAVINGS_CATEGORY, savings_goal) ::
    CORE_CATEGORIES.map (fun cat => (cat, spending_budget_per_cat))

/-! ## Summarization engine (`summarize_expenses`) -/

/-- Key membership in an association list with `List Char` keys (model of
`key in dict`). -/
def hasKey (m : List (List Char × ℚ)) (k : List Char) : Bool :=
  (List.lookup k m).isSome

/-- Add `v` to the value stored at the first occurrence of key `k`
(model of `dict[k] += v`; dictionary keys are unique). -/
def addToKey (m : List (List Char × ℚ)) (k : List Char) (v : ℚ) :
    List (List Char × ℚ) :=
  match m with
  | [] => []
  | (k1, v1) :: rest =>
    if k1 = k then (k1, v1 + v) :: rest else (k1, v1) :: addToKey rest k v

/-- One iteration of the aggregation loop in `summarize_expenses`: a
record adds to its category's bucket when the category is a spending
dictionary key, else adds to the savings-used total when it is the
savings-use marker, else is ignored. -/
def aggStep (acc : List (List Char × ℚ) × ℚ) (e : Expense) :
    List (List Char × ℚ) × ℚ :=
  if hasKey acc.1 e.category then (addToKey acc.1 e.category e.amount, acc.2)
  else if e.category = SAVINGS_USE_CATEGORY then (acc.1, acc.2 + e.amount)
  else acc

/-- The aggregation loop of `summarize_expenses`, starting from a spending
dictionary holding 0 for every budget key and a zero savings-used total. -/
def aggregate (budgets : List (List Char × ℚ)) (records : List Expense) :
    List (List Char × ℚ) × ℚ :=
  records.foldl aggStep (budgets.map (fun p => (p.1, (0 : ℚ))), 0)

/-- One printed row of the category breakdown. -/
structure CategoryRow where
  category : List Char
  budget : ℚ
  spent : ℚ
  remaining : ℚ
  percentage_used : ℚ
  filled_length : ℤ
  over_budget : Bool
deriving DecidableEq, Repr

/-- Model of the category-row computation in `summarize_expenses`:
`remaining = budget − spent`; `percentage_used = spent/budget` guarded to
0 for a zero budget; the bar's filled length truncates
`BAR_LENGTH * min(percentage_used, 1.0)`; the row renders as a full red
bar exactly when `remaining < 0`. -/
def mkRow (category : List Char) (budget_amount spent_amount : ℚ) : CategoryRow :=
  let remaining := budget_amount - spent_amount
  let percentage_used := if budget_amount > 0 then spent_amount / budget_amount else 0
  { category := category
    budget := budget_amount
    spent := spent_amount
    remaining := remaining
    percentage_used := percentage_used
    filled_length := pyInt (30 * (if percentage_used ≤ 1 then percentage_used else 1))
    over_budget := decide (remaining < 0) }

/-- The derived report of one `summarize_expenses` run. -/
structure Summary where
  rows : List CategoryRow
  total_budget : ℚ
  total_spent : ℚ
  total_savings_used : ℚ
  initial_savings_goal : ℚ
  adjusted_savings_goal : ℚ
  total_spending_budget : ℚ
  remaining_spending_budget : ℚ
  /-- `(remaining_days, daily_budget)`, present iff the requested period is
  the current month and year. -/
  daily : Option (ℤ × ℚ)
deriving DecidableEq, Repr

/-- The record filter of `summarize_expenses`: keep a record iff its
timestamp parses and the month and year match the optional filters. -/
def keepExpense (filter_month filter_year : Option Nat) (e : Expense) : Bool :=
  match parseTimestamp e.timestamp with
  | none => false
  | some d =>
    (match filter_month with
     | none => true
     | some m => d.month == m) &&
    (match filter_year with
     | none => true
     | some y => d.year == y)

/-- The report computed by `summarize_expenses` once the filtered list is
known to be non-empty. -/
def computeSummary (category_budgets : List (List Char × ℚ))
    (filtered : List Expense) (filter_month filter_year : Option Nat)
    (now : Timestamp) : Summary :=
  let agg := aggregate category_budgets filtered
  let spending_by_category := agg.1
  let total_savings_used := agg.2
  let total_budget := (category_budgets.map Prod.snd).sum
  let total_spent := (spending_by_category.map Prod.snd).sum
  let is_current_month :=
    filter_month == some now.month && filter_year == some now.year
  let rows := category_budgets.map (fun p =>
    mkRow p.1 p.2 ((List.lookup p.1 spending_by_category).getD 0))
  let initial_savings_goal := (List.lookup SAVINGS_CATEGORY category_budgets).getD 0
  let adjusted_savings_goal := initial_savings_goal - total_savings_used
  let total_spending_budget := total_budget - initial_savings_goal
  let remaining_spending_budget := total_spending_budget - total_spent
  { rows := rows
    total_budget := total_budget
    total_spent := total_spent
    total_savings_used := total_savings_used
    initial_savings_goal := initial_savings_goal
    adjusted_savings_goal := adjusted_savings_goal
    total_spending_budget := total_spending_budget
    remaining_spending_budget := remaining_spending_budget
    daily :=
      if is_current_month then
        let days_in_month := monthrange_days now.year now.month
        let remaining_days : ℤ := (days_in_month : ℤ) - (now.day : ℤ) + 1
        let daily_budget :=
          if remaining_days > 0 then remaining_spending_budget / (remaining_days : ℚ)
          else remaining_spending_budget
        some (remaining_days, daily_budget)
      else none }

/-- Modelled from the claim's wording (C1): the "total spent excluding
amounts aggregated under the savings category itself" — the sum of every
spending bucket other than the savings category's own bucket.  This
definition follows the claim, not the source, and is compared against
what the source computes. -/
def spentExcludingSavings (budgets : List (List Char × ℚ))
    (filtered : List Expense) : ℚ :=
  (((aggregate budgets filtered).1.filter
    (fun p => !(p.1 == SAVINGS_CATEGORY))).map Prod.snd).sum

/-- `summarize_expenses` on an already-loaded record list: filter by
period, and either signal "no expenses found for this period" (`none`) —
performing no aggregation — or produce the report. -/
def summarize_expenses (records : List Expense)
    (category_budgets : List (List Char × ℚ))
    (filter_month filter_year : Option Nat) (now : Timestamp) : Option Summary :=
  let filtered := records.filter (keepExpense filter_month filter_year)
  if filtered.isEmpty then none
  else some (computeSummary category_budgets filtered filter_month filter_year now)

/-! ## General lemmas -/

theorem pyInt_le_thirty (q : ℚ) (h : q ≤ 30) : pyInt q ≤ 30 := by
  unfold pyInt
  split
  · have h0 : (0 : ℤ) ≤ ⌊-q⌋ := Int.floor_nonneg.mpr (by linarith)
    omega
  · calc ⌊q⌋ ≤ ⌊(30 : ℚ)⌋ := Int.floor_le_floor h
    _ = 30 := by norm_num

theorem addToKey_keys (m : List (List Char × ℚ)) (k : List Char) (v : ℚ) :
    (addToKey m k v).map Prod.fst = m.map Prod.fst := by
  induction m with
  | nil => rfl
  | cons p rest ih =>
    obtain ⟨k1, v1⟩ := p
    by_cases h : k1 = k
    · simp [addToKey, h]
    · simp [addToKey, h, ih]

theorem lookup_addToKey_self (m : List (List Char × ℚ)) (k : List Char) (v : ℚ) :
    List.lookup k (addToKey m k v) = (List.lookup k m).map (· + v) := by
  induction m with
  | nil => rfl
  | cons p rest ih =>
    obtain ⟨k1, v1⟩ := p
    by_cases h : k1 = k
    · subst h
      simp [addToKey, List.lookup_cons]
    · have hbeq : (k == k1) = false := beq_eq_false_iff_ne.mpr (Ne.symm h)
      simp [addToKey, h, List.lookup_cons, hbeq, ih]

theorem lookup_addToKey_ne (m : List (List Char × ℚ)) {k' k : List Char}
    (h : k' ≠ k) (v : ℚ) :
    List.lookup k' (addToKey m k v) = List.lookup k' m := by
  induction m with
  | nil => rfl
  | cons p rest ih =>
    obtain ⟨k1, v1⟩ := p
    by_cases h1 : k1 = k
    · subst h1
      have hbeq : (k' == k1) = false := beq_eq_false_iff_ne.mpr h
      simp [addToKey, List.lookup_cons, hbeq]
    · by_cases h2 : k' = k1
      · subst h2
        simp [addToKey, h1, List.lookup_cons]
      · have hbeq : (k' == k1) = false := beq_eq_false_iff_ne.mpr h2
        simp [addToKey, h1, List.lookup_cons, hbeq, ih]

theorem lookup_isSome_iff (m : List (List Char × ℚ)) (k : List Char) :
    (List.lookup k m).isSome = true ↔ k ∈ m.map Prod.fst := by
  induction m with
  | nil => simp
  | cons p rest ih =>
    obtain ⟨k1, v1⟩ := p
    by_cases h : k = k1
    · subst h
      simp [List.lookup_cons]
    · have hbeq : (k == k1) = false := beq_eq_false_iff_ne.mpr h
      simp [List.lookup_cons, hbeq, h, ih]

theorem lookup_eq_none_of_not_mem (m : List (List Char × ℚ)) (k : List Char)
    (h : k ∉ m.map Prod.fst) : List.lookup k m = none := by
  rcases h1 : List.lookup k m with _ | v
  · rfl
  · exfalso
    exact h ((lookup_isSome_iff m k).mp (by simp [h1]))

theorem hasKey_congr {m₁ m₂ : List (List Char × ℚ)}
    (h : m₁.map Prod.fst = m₂.map Prod.fst) (k : List Char) :
    hasKey m₁ k = hasKey m₂ k := by
  unfold hasKey
  rw [Bool.eq_iff_iff, lookup_isSome_iff, lookup_isSome_iff, h]

theorem aggLoop_keys (records : List Expense) :
    ∀ acc : List (List Char × ℚ) × ℚ,
      ((records.foldl aggStep acc).1).map Prod.fst = acc.1.map Prod.fst := by
  induction records with
  | nil => intro acc; rfl
  | cons e rest ih =>
    intro acc
    rw [List.foldl_cons, ih]
    unfold aggStep
    split
    · exact addToKey_keys _ _ _
    · split <;> rfl

theorem aggLoop_lookup (records : List Expense) :
    ∀ (acc : List (List Char × ℚ) × ℚ) (k : List Char),
      hasKey acc.1 k = true →
      List.lookup k (records.foldl aggStep acc).1 =
        (List.lookup k acc.1).map
          (· + ((records.filter (fun e => e.category == k)).map Expense.amount).sum) := by
  induction records with
  | nil =>
    intro acc k hk
    simp
  | cons e rest ih =>
    intro acc k hk
    rw [List.foldl_cons]
    have hkeys : (aggStep acc e).1.map Prod.fst = acc.1.map Prod.fst := by
      unfold aggStep
      split
      · exact addToKey_keys _ _ _
      · split <;> rfl
    have hk' : hasKey (aggStep acc e).1 k = true := by
      rw [hasKey_congr hkeys]; exact hk
    by_cases hcat : e.category = k
    · rw [List.filter_cons_of_pos (by simp [hcat])]
      have hstep : aggStep acc e = (addToKey acc.1 e.category e.amount, acc.2) := by
        unfold aggStep
        rw [if_pos (by rw [hcat]; exact hk)]
      rw [ih _ _ hk', hstep]
      rw [hcat, lookup_addToKey_self, Option.map_map, List.map_cons, List.sum_cons]
      congr 1
      funext x
      simp only [Function.comp_apply]
      ring
    · rw [List.filter_cons_of_neg (by simp [hcat])]
      rw [ih _ _ hk']
      have : List.lookup k (aggStep acc e).1 = List.lookup k acc.1 := by
        unfold aggStep
        split
        · exact lookup_addToKey_ne _ (fun hkk => hcat hkk.symm) _
        · split <;> rfl
      rw [this]

theorem aggLoop_used (records : List Expense) :
    ∀ acc : List (List Char × ℚ) × ℚ,
      (records.foldl aggStep acc).2 =
        acc.2 + ((records.filter (fun e =>
          e.category == SAVINGS_USE_CATEGORY && !(hasKey acc.1 e.category))).map
            Expense.amount).sum := by
  induction records with
  | nil =>
    intro acc
    simp
  | cons e rest ih =>
    intro acc
    rw [List.foldl_cons]
    have hkeys : (aggStep acc e).1.map Prod.fst = acc.1.map Prod.fst := by
      unfold aggStep
      split
      · exact addToKey_keys _ _ _
      · split <;> rfl
    have hfc : ∀ l : List Expense,
        l.filter (fun x => x.category == SAVINGS_USE_CATEGORY &&
          !(hasKey (aggStep acc e).1 x.category)) =
        l.filter (fun x => x.category == SAVINGS_USE_CATEGORY &&
          !(hasKey acc.1 x.category)) := by
      intro l
      apply List.filter_congr
      intro x _
      rw [hasKey_congr hkeys]
    by_cases h1 : hasKey acc.1 e.category = true
    · have hstep : aggStep acc e = (addToKey acc.1 e.category e.amount, acc.2) := by
        unfold aggStep
        rw [if_pos h1]
      rw [ih, hfc, hstep, List.filter_cons_of_neg (by simp [h1])]
    · by_cases h2 : e.category = SAVINGS_USE_CATEGORY
      · have hstep : aggStep acc e = (acc.1, acc.2 + e.amount) := by
          unfold aggStep
          rw [if_neg (by simp [h1]), if_pos h2]
        have h1f : hasKey acc.1 SAVINGS_USE_CATEGORY = false := by
          rw [← h2]
          exact Bool.eq_false_iff.mpr h1
        rw [ih, hfc, hstep, List.filter_cons_of_pos (by simp [h2, h1f])]
        simp only [List.map_cons, List.sum_cons]
        ring
      · have hstep : aggStep acc e = acc := by
          unfold aggStep
          rw [if_neg (by simp [h1]), if_neg h2]
        rw [ih, hfc, hstep, List.filter_cons_of_neg (by simp [h2])]

theorem sum_values_eq_keys_sum (m : List (List Char × ℚ))
    (h : (m.map Prod.fst).Nodup) :
    (m.map Prod.snd).sum =
      ((m.map Prod.fst).map (fun k => (List.lookup k m).getD 0)).sum := by
  induction m with
  | nil => rfl
  | cons p rest ih =>
    obtain ⟨k1, v1⟩ := p
    simp only [List.map_cons, List.nodup_cons] at h ⊢
    rw [List.sum_cons, List.sum_cons, ih h.2]
    congr 1
    · simp [List.lookup_cons]
    · apply congrArg
      apply List.map_congr_left
      intro k' hk'
      have hne : (k' == k1) = false := by
        refine beq_eq_false_iff_ne.mpr (fun he => ?_)
        exact h.1 (he ▸ hk')
      simp [List.lookup_cons, hne]

theorem sum_values_split (m : List (List Char × ℚ)) (K : List Char)
    (h : (m.map Prod.fst).Nodup) :
    (m.map Prod.snd).sum =
      ((m.filter (fun p => !(p.1 == K))).map Prod.snd).sum +
        (List.lookup K m).getD 0 := by
  induction m with
  | nil => simp
  | cons p rest ih =>
    obtain ⟨k1, v1⟩ := p
    simp only [List.map_cons, List.nodup_cons] at h
    by_cases hk : k1 = K
    · subst hk
      rw [List.filter_cons_of_neg (by simp)]
      have hself : List.filter (fun p => !(p.1 == k1)) rest = rest := by
        apply List.filter_eq_self.mpr
        intro a ha
        have hne : a.1 ≠ k1 := by
          intro he
          exact h.1 (he ▸ List.mem_map_of_mem Prod.fst ha)
        simp [beq_eq_false_iff_ne.mpr hne]
      rw [hself, List.lookup_cons]
      simp only [beq_self_eq_true]
      rw [List.map_cons, List.sum_cons]
      exact add_comm _ _
    · rw [List.filter_cons_of_pos (by simp [hk])]
      have hbeq : (K == k1) = false := beq_eq_false_iff_ne.mpr (Ne.symm hk)
      rw [List.lookup_cons]
      simp only [hbeq]
      rw [List.map_cons, List.sum_cons, List.map_cons, List.sum_cons, ih h.2]
      ring

/-! ## Claim theorems -/

/-- C3: for `total_income > 0` and `0 ≤ savings_goal ≤ total_income`, the
budget allocator returns exactly 6 entries (savings category mapped to
the goal, each of the five core categories to `(income − goal)/5`), all
values nonnegative, with `savings + 5·per_category = income` (exactly, in
`ℚ`); and a negative spending remainder is clamped to a per-category
allocation of 0. -/
theorem C3_budget_allocation (total_money savings_goal : ℚ)
    (hpos : 0 < total_money) (hgoal0 : 0 ≤ savings_goal)
    (hgoal : savings_goal ≤ total_money) :
    (get_total_money_and_calculate_budgets total_money savings_goal).length = 6 ∧
    ((get_total_money_and_calculate_budgets total_money savings_goal).map Prod.fst).Nodup ∧
    List.lookup SAVINGS_CATEGORY
      (get_total_money_and_calculate_budgets total_money savings_goal)
      = some savings_goal ∧
    (∀ cat ∈ CORE_CATEGORIES,
      List.lookup cat (get_total_money_and_calculate_budgets total_money savings_goal)
        = some ((total_money - savings_goal) / 5)) ∧
    (∀ p ∈ get_total_money_and_calculate_budgets total_money savings_goal, 0 ≤ p.2) ∧
    savings_goal + 5 * ((total_money - savings_goal) / 5) = total_money ∧
    (∀ tm sg : ℚ, tm - sg < 0 → ∀ cat ∈ CORE_CATEGORIES,
      List.lookup cat (get_total_money_and_calculate_budgets tm sg) = some 0) := by
  have hrem : ¬(total_money - savings_goal < 0) := by linarith
  have hper : (if total_money - savings_goal < 0 then (0 : ℚ)
      else (total_money - savings_goal) / (CORE_CATEGORIES.length : ℚ))
      = (total_money - savings_goal) / 5 := by
    rw [if_neg hrem]
    norm_num [CORE_CATEGORIES]
  refine ⟨?_, ?_, ?_, ?_, ?_, ?_, ?_⟩
  · simp [get_total_money_and_calculate_budgets, CORE_CATEGORIES]
  · simp only [get_total_money_and_calculate_budgets]
    simp only [CORE_CATEGORIES, SAVINGS_CATEGORY, List.map]
    decide
  · simp [get_total_money_and_calculate_budgets, List.lookup]
  · intro cat hcat
    fin_cases hcat <;>
      simp [get_total_money_and_calculate_budgets, hper, CORE_CATEGORIES,
        SAVINGS_CATEGORY, List.lookup] <;>
      (intro h; exfalso; linarith)
  · intro p hp
    simp only [get_total_money_and_calculate_budgets, hper, List.mem_cons,
      List.mem_map] at hp
    rcases hp with h | ⟨cat, _, h⟩
    · rw [h]; exact hgoal0
    · rw [← h]
      have : (0 : ℚ) ≤ total_money - savings_goal := by linarith
      positivity
  · field_simp
  · intro tm sg hneg cat hcat
    have hper0 : (if tm - sg < 0 then (0 : ℚ)
        else (tm - sg) / (CORE_CATEGORIES.length : ℚ)) = 0 := if_pos hneg
    fin_cases hcat <;>
      simp [get_total_money_and_calculate_budgets, hper0, CORE_CATEGORIES,
        SAVINGS_CATEGORY, List.lookup] <;>
      (intro h; exfalso; linarith)

/-- C3 witness: the theorem applied at income 1000, savings goal 200. -/
theorem C3_budget_allocation_witness :
    List.lookup SAVINGS_CATEGORY (get_total_money_and_calculate_budgets 1000 200)
      = some 200 ∧
    (200 : ℚ) + 5 * ((1000 - 200) / 5) = 1000 := by
  have h := C3_budget_allocation 1000 200 (by norm_num) (by norm_num) (by norm_num)
  exact ⟨h.2.2.1, h.2.2.2.2.2.1⟩

/-- C9: deleting with a valid 1-based index `k` removes exactly the `k`-th
record, keeping the others in their original relative order (so the store
shrinks by one); an out-of-bounds number leaves the store untouched, and
the cancel sentinel leaves the store untouched. -/
theorem C9_delete_expense (store : List Expense) (k : ℤ) :
    (1 ≤ k → k ≤ (store.length : ℤ) →
      delete_expense store (.num k) =
        store.take (k - 1).toNat ++ store.drop k.toNat ∧
      (delete_expense store (.num k)).length = store.length - 1) ∧
    (k < 1 ∨ (store.length : ℤ) < k → delete_expense store (.num k) = store) ∧
    delete_expense store DeleteSelection.cancel = store := by
  refine ⟨fun h1 h2 => ?_, fun hoob => ?_, ?_⟩
  · have hne : store.isEmpty = false := by
      cases store with
      | nil => simp at h2; omega
      | cons a l => rfl
    have hcond : 0 ≤ k - 1 ∧ k - 1 < (store.length : ℤ) := by omega
    constructor
    · simp only [delete_expense, hne, Bool.false_eq_true, if_false, if_pos hcond]
      rw [List.eraseIdx_eq_take_drop_succ]
      have hsucc : (k - 1).toNat + 1 = k.toNat := by omega
      rw [hsucc]
    · simp only [delete_expense, hne, Bool.false_eq_true, if_false, if_pos hcond]
      rw [List.length_eraseIdx]
      rw [if_pos (by omega)]
  · simp only [delete_expense]
    split
    · rfl
    · rename_i hne
      rw [if_neg (by omega)]
  · simp only [delete_expense]
    split <;> rfl

/-- C9 witness: deleting index 2 from a 3-record store keeps records 1 and
3 in order (Scenario D), plus the out-of-bounds and cancel cases. -/
theorem C9_delete_expense_witness :
    delete_expense
      [⟨"a".data, "c".data, 1, "t".data⟩, ⟨"b".data, "c".data, 2, "t".data⟩,
       ⟨"e".data, "c".data, 3, "t".data⟩] (.num 2)
      = [⟨"a".data, "c".data, 1, "t".data⟩, ⟨"e".data, "c".data, 3, "t".data⟩] ∧
    delete_expense [⟨"a".data, "c".data, 1, "t".data⟩] (.num 5)
      = [⟨"a".data, "c".data, 1, "t".data⟩] ∧
    delete_expense [⟨"a".data, "c".data, 1, "t".data⟩] DeleteSelection.cancel
      = [⟨"a".data, "c".data, 1, "t".data⟩] := by
  refine ⟨?_, ?_, ?_⟩
  · have h := (C9_delete_expense
      [⟨"a".data, "c".data, 1, "t".data⟩, ⟨"b".data, "c".data, 2, "t".data⟩,
       ⟨"e".data, "c".data, 3, "t".data⟩] 2).1 (by norm_num) (by norm_num)
    rw [h.1]
    rfl
  · exact (C9_delete_expense [⟨"a".data, "c".data, 1, "t".data⟩] 5).2.1
      (by right; norm_num)
  · exact (C9_delete_expense [⟨"a".data, "c".data, 1, "t".data⟩] 0).2.2

/-- C4: a record passes the period filter iff its timestamp parses and the
optional month and year filters match (an unparseable timestamp is
silently excluded); and `summarize_expenses` signals "no data" (returns
`none`, computing nothing further) exactly when the filtered list is
empty. -/
theorem C4_period_filter (records : List Expense)
    (budgets : List (List Char × ℚ)) (fm fy : Option Nat) (now : Timestamp) :
    (∀ e : Expense, keepExpense fm fy e = true ↔
      ∃ d, parseTimestamp e.timestamp = some d ∧
        (fm = none ∨ fm = some d.month) ∧ (fy = none ∨ fy = some d.year)) ∧
    (summarize_expenses records budgets fm fy now = none ↔
      records.filter (keepExpense fm fy) = []) := by
  constructor
  · intro e
    unfold keepExpense
    cases hp : parseTimestamp e.timestamp with
    | none => simp
    | some d =>
      cases fm <;> cases fy <;> simp <;> omega
  · unfold summarize_expenses
    by_cases h : List.filter (keepExpense fm fy) records = []
    · simp [List.isEmpty_iff, h]
    · simp [List.isEmpty_iff, h]

theorem mkRow_budget (c : List Char) (b sp : ℚ) : (mkRow c b sp).budget = b := rfl

theorem mkRow_spent (c : List Char) (b sp : ℚ) : (mkRow c b sp).spent = sp := rfl

theorem mkRow_remaining (c : List Char) (b sp : ℚ) :
    (mkRow c b sp).remaining = b - sp := rfl

theorem mkRow_percentage (c : List Char) (b sp : ℚ) :
    (mkRow c b sp).percentage_used = if 0 < b then sp / b else 0 := rfl

theorem mkRow_filled (c : List Char) (b sp : ℚ) :
    (mkRow c b sp).filled_length =
      pyInt (30 * (if (mkRow c b sp).percentage_used ≤ 1
        then (mkRow c b sp).percentage_used else 1)) := rfl

theorem lookup_map_zero (budgets : List (List Char × ℚ)) (k : List Char) :
    List.lookup k (budgets.map (fun p => (p.1, (0 : ℚ)))) =
      (List.lookup k budgets).map (fun _ => (0 : ℚ)) := by
  induction budgets with
  | nil => rfl
  | cons p rest ih =>
    obtain ⟨k1, v1⟩ := p
    by_cases h : k = k1
    · subst h
      simp [List.lookup_cons]
    · have hbeq : (k == k1) = false := beq_eq_false_iff_ne.mpr h
      simp [List.lookup_cons, hbeq, ih]

theorem computeSummary_total_budget (b : List (List Char × ℚ))
    (f : List Expense) (fm fy : Option Nat) (now : Timestamp) :
    (computeSummary b f fm fy now).total_budget = (b.map Prod.snd).sum := rfl

theorem computeSummary_total_spent (b : List (List Char × ℚ))
    (f : List Expense) (fm fy : Option Nat) (now : Timestamp) :
    (computeSummary b f fm fy now).total_spent =
      ((aggregate b f).1.map Prod.snd).sum := rfl

theorem computeSummary_savings_used (b : List (List Char × ℚ))
    (f : List Expense) (fm fy : Option Nat) (now : Timestamp) :
    (computeSummary b f fm fy now).total_savings_used = (aggregate b f).2 := rfl

theorem computeSummary_initial (b : List (List Char × ℚ))
    (f : List Expense) (fm fy : Option Nat) (now : Timestamp) :
    (computeSummary b f fm fy now).initial_savings_goal =
      (List.lookup SAVINGS_CATEGORY b).getD 0 := rfl

theorem computeSummary_adjusted (b : List (List Char × ℚ))
    (f : List Expense) (fm fy : Option Nat) (now : Timestamp) :
    (computeSummary b f fm fy now).adjusted_savings_goal =
      (List.lookup SAVINGS_CATEGORY b).getD 0 - (aggregate b f).2 := rfl

theorem computeSummary_rsb (b : List (List Char × ℚ))
    (f : List Expense) (fm fy : Option Nat) (now : Timestamp) :
    (computeSummary b f fm fy now).remaining_spending_budget =
      ((b.map Prod.snd).sum - (List.lookup SAVINGS_CATEGORY b).getD 0) -
        ((aggregate b f).1.map Prod.snd).sum := rfl

theorem summarize_eq_some {records : List Expense}
    {budgets : List (List Char × ℚ)} {fm fy : Option Nat} {now : Timestamp}
    {s : Summary}
    (hs : summarize_expenses records budgets fm fy now = some s) :
    s = computeSummary budgets (records.filter (keepExpense fm fy)) fm fy now := by
  unfold summarize_expenses at hs
  by_cases h : (List.filter (keepExpense fm fy) records).isEmpty
  · simp [h] at hs
  · simp only [h, Bool.false_eq_true, if_false, Option.some.injEq] at hs
    exact hs.symm

/-- C6: in every row of the summary's category breakdown, a zero budget
yields utilization 0 (no division) and remaining = −spent; a positive
budget yields utilization spent/budget; and the filled length of the
visual bar never exceeds the full scale of 30 even when utilization
exceeds 100%. -/
theorem C6_category_rows (records : List Expense)
    (budgets : List (List Char × ℚ)) (fm fy : Option Nat) (now : Timestamp)
    (s : Summary) (row : CategoryRow)
    (hs : summarize_expenses records budgets fm fy now = some s)
    (hrow : row ∈ s.rows) :
    (row.budget = 0 → row.percentage_used = 0 ∧ row.remaining = -row.spent) ∧
    (0 < row.budget → row.percentage_used = row.spent / row.budget) ∧
    row.filled_length ≤ 30 := by
  have hseq := summarize_eq_some hs
  subst hseq
  simp only [computeSummary, List.mem_map] at hrow
  obtain ⟨p, hp, hrow⟩ := hrow
  subst hrow
  refine ⟨fun h0 => ?_, fun hb => ?_, ?_⟩
  · rw [mkRow_budget] at h0
    constructor
    · rw [mkRow_percentage, h0]
      simp
    · rw [mkRow_remaining, mkRow_spent, h0]
      ring
  · rw [mkRow_budget] at hb
    rw [mkRow_percentage, if_pos hb, mkRow_spent, mkRow_budget]
  · rw [mkRow_filled]
    apply pyInt_le_thirty
    split
    · rename_i hle
      linarith
    · norm_num

/-- C6 witness: the theorem applied to a concrete summary containing a
zero-budget row and an over-100% row. -/
theorem C6_category_rows_witness :
    ∃ s row,
      summarize_expenses
        [⟨"a".data, "🍔 Food".data, 150, "2024-03-05 12:00:00".data⟩]
        [("🍔 Food".data, 100), ("🎉 Fun".data, 0)]
        (some 3) (some 2024) ⟨2024, 3, 6, 0, 0, 0⟩ = some s ∧
      row ∈ s.rows ∧ row.filled_length ≤ 30 := by
  have hsome : summarize_expenses
      [⟨"a".data, "🍔 Food".data, 150, "2024-03-05 12:00:00".data⟩]
      [("🍔 Food".data, 100), ("🎉 Fun".data, 0)]
      (some 3) (some 2024) ⟨2024, 3, 6, 0, 0, 0⟩ =
      some (computeSummary [("🍔 Food".data, 100), ("🎉 Fun".data, 0)]
        ([⟨"a".data, "🍔 Food".data, 150, "2024-03-05 12:00:00".data⟩].filter
          (keepExpense (some 3) (some 2024)))
        (some 3) (some 2024) ⟨2024, 3, 6, 0, 0, 0⟩) := by
    unfold summarize_expenses
    rw [if_neg (by decide)]
  have hrow : (computeSummary [("🍔 Food".data, 100), ("🎉 Fun".data, 0)]
        ([⟨"a".data, "🍔 Food".data, 150, "2024-03-05 12:00:00".data⟩].filter
          (keepExpense (some 3) (some 2024)))
        (some 3) (some 2024) ⟨2024, 3, 6, 0, 0, 0⟩).rows ≠ [] := by
    simp [computeSummary]
  obtain ⟨row, hmem⟩ := List.exists_mem_of_ne_nil _ hrow
  exact ⟨_, row, hsome,
    hmem, (C6_category_rows _ _ _ _ _ _ row hsome hmem).2.2⟩

/-- C5: when the requested period equals the current month and year, the
report carries a daily limit with `remaining_days = days_in_month −
current_day + 1`; the division producing `daily_budget` happens only when
`remaining_days > 0`, otherwise `daily_budget` falls back to the
remaining spending budget; and on the final day of the month
`daily_budget` equals the remaining spending budget. -/
theorem C5_daily_limit (records : List Expense)
    (budgets : List (List Char × ℚ)) (fm fy : Option Nat) (now : Timestamp)
    (s : Summary)
    (hm : fm = some now.month) (hy : fy = some now.year)
    (hs : summarize_expenses records budgets fm fy now = some s) :
    ∃ rd db, s.daily = some (rd, db) ∧
      rd = (monthrange_days now.year now.month : ℤ) - (now.day : ℤ) + 1 ∧
      (0 < rd → db = s.remaining_spending_budget / (rd : ℚ)) ∧
      (rd ≤ 0 → db = s.remaining_spending_budget) ∧
      (now.day = monthrange_days now.year now.month →
        db = s.remaining_spending_budget) := by
  have hseq := summarize_eq_some hs
  subst hseq hm hy
  simp only [computeSummary, beq_self_eq_true, Bool.and_self, if_true]
  refine ⟨_, _, rfl, rfl, fun hpos => ?_, fun hnonpos => ?_, fun hfinal => ?_⟩
  · rw [if_pos hpos]
  · rw [if_neg (by omega)]
  · rw [if_pos (by omega), hfinal]
    have h1 : ((monthrange_days now.year now.month : ℤ) -
        (monthrange_days now.year now.month : ℤ) + 1) = 1 := by omega
    rw [h1]
    norm_num

/-- C5 witness: the theorem applied on the final day of March 2024. -/
theorem C5_daily_limit_witness :
    ∃ s rd db,
      summarize_expenses
        [⟨"a".data, "🍔 Food".data, 150, "2024-03-05 12:00:00".data⟩]
        [("🍔 Food".data, 200)]
        (some 3) (some 2024) ⟨2024, 3, 31, 23, 59, 59⟩ = some s ∧
      s.daily = some (rd, db) ∧ db = s.remaining_spending_budget := by
  have hsome : summarize_expenses
      [⟨"a".data, "🍔 Food".data, 150, "2024-03-05 12:00:00".data⟩]
      [("🍔 Food".data, 200)]
      (some 3) (some 2024) ⟨2024, 3, 31, 23, 59, 59⟩ =
      some (computeSummary [("🍔 Food".data, 200)]
        ([⟨"a".data, "🍔 Food".data, 150, "2024-03-05 12:00:00".data⟩].filter
          (keepExpense (some 3) (some 2024)))
        (some 3) (some 2024) ⟨2024, 3, 31, 23, 59, 59⟩) := by
    unfold summarize_expenses
    rw [if_neg (by decide)]
  obtain ⟨rd, db, hdaily, _, _, _, hfin⟩ :=
    C5_daily_limit _ _ (some 3) (some 2024) ⟨2024, 3, 31, 23, 59, 59⟩ _
      rfl rfl hsome
  exact ⟨_, rd, db, hsome, hdaily, hfin (by decide)⟩

/-- C2: over the filtered records, a record whose category is a budget
key adds its amount to that category's bucket; otherwise a record with
the savings-use marker category adds to the separate savings-withdrawn
total; any other category contributes to neither.  `total_spent` is the
sum of the per-category buckets (the savings-withdrawn total is a
separate field, never part of it), and the adjusted savings goal is
`initial − withdrawn` with no floor at zero. -/
theorem C2_aggregation (records : List Expense)
    (budgets : List (List Char × ℚ)) (fm fy : Option Nat) (now : Timestamp)
    (s : Summary) (hnd : (budgets.map Prod.fst).Nodup)
    (hs : summarize_expenses records budgets fm fy now = some s) :
    (∀ k, hasKey budgets k = true →
      List.lookup k (aggregate budgets (records.filter (keepExpense fm fy))).1 =
        some ((((records.filter (keepExpense fm fy)).filter
          (fun x => x.category == k)).map Expense.amount).sum)) ∧
    (aggregate budgets (records.filter (keepExpense fm fy))).2 =
      (((records.filter (keepExpense fm fy)).filter
        (fun x => x.category == SAVINGS_USE_CATEGORY &&
          !(hasKey budgets x.category))).map Expense.amount).sum ∧
    ((aggregate budgets (records.filter (keepExpense fm fy))).1).map Prod.fst =
      budgets.map Prod.fst ∧
    s.total_spent = ((budgets.map Prod.fst).map (fun k =>
      (List.lookup k
        (aggregate budgets (records.filter (keepExpense fm fy))).1).getD 0)).sum ∧
    s.total_savings_used =
      (aggregate budgets (records.filter (keepExpense fm fy))).2 ∧
    s.initial_savings_goal = (List.lookup SAVINGS_CATEGORY budgets).getD 0 ∧
    s.adjusted_savings_goal = s.initial_savings_goal - s.total_savings_used := by
  have hseq := summarize_eq_some hs
  subst hseq
  have hinitkeys : (budgets.map (fun p => (p.1, (0 : ℚ)))).map Prod.fst =
      budgets.map Prod.fst := by
    simp
  have haggkeys : ((aggregate budgets
      (records.filter (keepExpense fm fy))).1).map Prod.fst =
      budgets.map Prod.fst := by
    unfold aggregate
    rw [aggLoop_keys]
    exact hinitkeys
  refine ⟨?_, ?_, haggkeys, ?_, rfl, rfl, rfl⟩
  · intro k hk
    have hk0 : hasKey (budgets.map (fun p => (p.1, (0 : ℚ)))) k = true := by
      rw [hasKey_congr hinitkeys]
      exact hk
    unfold aggregate
    rw [aggLoop_lookup _ _ _ hk0]
    obtain ⟨v, hv⟩ := Option.isSome_iff_exists.mp hk
    rw [lookup_map_zero, hv]
    simp
  · unfold aggregate
    rw [aggLoop_used]
    have hpred : (records.filter (keepExpense fm fy)).filter
        (fun x => x.category == SAVINGS_USE_CATEGORY &&
          !(hasKey (budgets.map (fun p => (p.1, (0 : ℚ)))) x.category)) =
        (records.filter (keepExpense fm fy)).filter
        (fun x => x.category == SAVINGS_USE_CATEGORY &&
          !(hasKey budgets x.category)) := by
      apply List.filter_congr
      intro x _
      rw [hasKey_congr hinitkeys]
    rw [hpred]
    simp
  · rw [computeSummary_total_spent,
      sum_values_eq_keys_sum _ (by rw [haggkeys]; exact hnd), haggkeys]

/-- C2 witness: the theorem applied to Scenario B (a savings-use record
of 300 against a budget whose savings goal is 1000). -/
theorem C2_aggregation_witness :
    ∃ s, summarize_expenses
        [⟨"u".data, SAVINGS_USE_CATEGORY, 300, "2024-03-05 12:00:00".data⟩]
        [(SAVINGS_CATEGORY, 1000)] none none ⟨2024, 3, 6, 0, 0, 0⟩ = some s ∧
      s.adjusted_savings_goal = s.initial_savings_goal - s.total_savings_used := by
  have hsome : summarize_expenses
      [⟨"u".data, SAVINGS_USE_CATEGORY, 300, "2024-03-05 12:00:00".data⟩]
      [(SAVINGS_CATEGORY, 1000)] none none ⟨2024, 3, 6, 0, 0, 0⟩ =
      some (computeSummary [(SAVINGS_CATEGORY, 1000)]
        ([⟨"u".data, SAVINGS_USE_CATEGORY, 300, "2024-03-05 12:00:00".data⟩].filter
          (keepExpense none none)) none none ⟨2024, 3, 6, 0, 0, 0⟩) := by
    unfold summarize_expenses
    rw [if_neg (by decide)]
  exact ⟨_, hsome,
    (C2_aggregation _ _ _ _ _ _ (by decide) hsome).2.2.2.2.2.2⟩

/-- C1 counterexample: with budget `{savings: 100}` and one record of 50
recorded under the savings category itself, the code reports a remaining
spending budget of −50, while the claim's formula (total budget − initial
savings − spending excluding the savings category) gives 0: spending
recorded under the savings category DOES reduce the remaining spending
budget. -/
theorem C1_counterexample :
    summarize_expenses
        [⟨"x".data, SAVINGS_CATEGORY, 50, "2024-01-05 10:00:00".data⟩]
        [(SAVINGS_CATEGORY, 100)] none none ⟨2024, 1, 6, 0, 0, 0⟩ =
      some (computeSummary [(SAVINGS_CATEGORY, 100)]
        ([⟨"x".data, SAVINGS_CATEGORY, 50, "2024-01-05 10:00:00".data⟩].filter
          (keepExpense none none)) none none ⟨2024, 1, 6, 0, 0, 0⟩) ∧
    ¬ ((computeSummary [(SAVINGS_CATEGORY, 100)]
        ([⟨"x".data, SAVINGS_CATEGORY, 50, "2024-01-05 10:00:00".data⟩].filter
          (keepExpense none none)) none none
        ⟨2024, 1, 6, 0, 0, 0⟩).remaining_spending_budget =
      ((computeSummary [(SAVINGS_CATEGORY, 100)]
        ([⟨"x".data, SAVINGS_CATEGORY, 50, "2024-01-05 10:00:00".data⟩].filter
          (keepExpense none none)) none none
        ⟨2024, 1, 6, 0, 0, 0⟩).total_budget -
       (computeSummary [(SAVINGS_CATEGORY, 100)]
        ([⟨"x".data, SAVINGS_CATEGORY, 50, "2024-01-05 10:00:00".data⟩].filter
          (keepExpense none none)) none none
        ⟨2024, 1, 6, 0, 0, 0⟩).initial_savings_goal) -
        spentExcludingSavings [(SAVINGS_CATEGORY, 100)]
          ([⟨"x".data, SAVINGS_CATEGORY, 50, "2024-01-05 10:00:00".data⟩].filter
            (keepExpense none none))) := by
  have hfilter : [(⟨"x".data, SAVINGS_CATEGORY, 50, "2024-01-05 10:00:00".data⟩ :
      Expense)].filter (keepExpense none none) =
      [⟨"x".data, SAVINGS_CATEGORY, 50, "2024-01-05 10:00:00".data⟩] := by
    decide
  have hagg : aggregate [(SAVINGS_CATEGORY, 100)]
      [⟨"x".data, SAVINGS_CATEGORY, 50, "2024-01-05 10:00:00".data⟩] =
      ([(SAVINGS_CATEGORY, 0 + 50)], 0) := by
    unfold aggregate aggStep
    simp [hasKey, addToKey, List.lookup_cons]
  constructor
  · unfold summarize_expenses
    rw [if_neg (by decide)]
  · rw [computeSummary_rsb, computeSummary_total_budget, computeSummary_initial]
    unfold spentExcludingSavings
    rw [hfilter, hagg]
    simp [List.lookup_cons]

/-- C1 (amended): the remaining spending budget reported by summarize is
(total budget − initial savings allocation) − total_spent, where
total_spent sums every per-category bucket INCLUDING the bucket of the
savings category itself — so spending recorded under the savings category
does reduce the remaining spending budget. -/
theorem C1_remaining_spending_budget (records : List Expense)
    (budgets : List (List Char × ℚ)) (fm fy : Option Nat) (now : Timestamp)
    (s : Summary) (hnd : (budgets.map Prod.fst).Nodup)
    (hs : summarize_expenses records budgets fm fy now = some s) :
    s.remaining_spending_budget =
      (s.total_budget - s.initial_savings_goal) - s.total_spent ∧
    s.total_budget = (budgets.map Prod.snd).sum ∧
    s.initial_savings_goal = (List.lookup SAVINGS_CATEGORY budgets).getD 0 ∧
    s.total_spent =
      spentExcludingSavings budgets (records.filter (keepExpense fm fy)) +
        (List.lookup SAVINGS_CATEGORY
          (aggregate budgets (records.filter (keepExpense fm fy))).1).getD 0 := by
  have hseq := summarize_eq_some hs
  subst hseq
  have haggkeys : ((aggregate budgets
      (records.filter (keepExpense fm fy))).1).map Prod.fst =
      budgets.map Prod.fst := by
    unfold aggregate
    rw [aggLoop_keys]
    simp
  refine ⟨rfl, rfl, rfl, ?_⟩
  rw [computeSummary_total_spent]
  unfold spentExcludingSavings
  exact sum_values_split _ SAVINGS_CATEGORY (by rw [haggkeys]; exact hnd)

/-- C1 witness (for the amended claim): applied to the counterexample
input, where total_spent is carried entirely by the savings category's
own bucket. -/
theorem C1_remaining_spending_budget_witness :
    ∃ s, summarize_expenses
        [⟨"x".data, SAVINGS_CATEGORY, 50, "2024-01-05 10:00:00".data⟩]
        [(SAVINGS_CATEGORY, 100)] none none ⟨2024, 1, 6, 0, 0, 0⟩ = some s ∧
      s.remaining_spending_budget =
        (s.total_budget - s.initial_savings_goal) - s.total_spent := by
  have hsome : summarize_expenses
      [⟨"x".data, SAVINGS_CATEGORY, 50, "2024-01-05 10:00:00".data⟩]
      [(SAVINGS_CATEGORY, 100)] none none ⟨2024, 1, 6, 0, 0, 0⟩ =
      some (computeSummary [(SAVINGS_CATEGORY, 100)]
        ([⟨"x".data, SAVINGS_CATEGORY, 50, "2024-01-05 10:00:00".data⟩].filter
          (keepExpense none none)) none none ⟨2024, 1, 6, 0, 0, 0⟩) := by
    unfold summarize_expenses
    rw [if_neg (by decide)]
  exact ⟨_, hsome,
    (C1_remaining_spending_budget _ _ _ _ _ _ (by decide) hsome).1⟩

/-- C8: loading a missing file yields the empty sequence; a line with
fewer than 3 comma-separated fields is skipped; a line whose amount field
does not parse as a decimal is skipped; the remaining lines are processed
independently; and loading a file with one well-formed line and one
2-field line yields exactly one record. -/
theorem C8_load_error_handling (now : Timestamp) :
    load_expenses none now = [] ∧
    (∀ rawLine, (splitSep ',' (strip rawLine)).length < 3 →
      parseLine now rawLine = none) ∧
    (∀ rawLine, parseAmount ((splitSep ',' (strip rawLine)).getD 1 []) = none →
      parseLine now rawLine = none) ∧
    (∀ content, load_expenses (some content) now =
      (splitSep '\n' content).filterMap (parseLine now)) ∧
    (load_expenses
      (some ("Lunch,150.00,🍔 Food,2024-03-05 12:00:00\nbad,2\n".data)) now).length
      = 1 := by
  refine ⟨rfl, ?_, ?_, fun content => rfl, rfl⟩
  · intro rawLine hlen
    unfold parseLine
    by_cases hemp : (strip rawLine).isEmpty
    · rw [if_pos hemp]
    · rw [if_neg hemp, if_neg (by omega)]
  · intro rawLine hamt
    unfold parseLine
    by_cases hemp : (strip rawLine).isEmpty
    · rw [if_pos hemp]
    · rw [if_neg hemp]
      by_cases hlen : (splitSep ',' (strip rawLine)).length ≥ 3
      · rw [if_pos hlen, hamt]
      · rw [if_neg hlen]

/-- C8 witness: the theorem applied to the 2-field line `"bad,2"`, to a
line with an unparseable amount, and to the two-line scenario file. -/
theorem C8_load_error_handling_witness :
    parseLine ⟨2024, 3, 6, 0, 0, 0⟩ "bad,2".data = none ∧
    parseLine ⟨2024, 3, 6, 0, 0, 0⟩ "a,xx,c".data = none := by
  have h := C8_load_error_handling ⟨2024, 3, 6, 0, 0, 0⟩
  exact ⟨h.2.1 "bad,2".data (by decide), h.2.2.1 "a,xx,c".data (by decide)⟩

/-! ## Digit and timestamp round-trip lemmas -/

theorem digitVal_digitChar {d : Nat} (h : d < 10) :
    digitVal (Nat.digitChar d) = d := by
  interval_cases d <;> decide

theorem digitChar_isDigit {d : Nat} (h : d < 10) :
    (Nat.digitChar d).isDigit = true := by
  interval_cases d <;> decide

theorem readNum2_pad2 (n : Nat) (h : n < 100) (rest : List Char) :
    readNum2 (pad2 n ++ rest) = some (n, rest) := by
  have h1 : n / 10 % 10 < 10 := Nat.mod_lt _ (by norm_num)
  have h2 : n % 10 < 10 := Nat.mod_lt _ (by norm_num)
  simp only [pad2, List.cons_append, List.nil_append, readNum2,
    digitChar_isDigit h1, digitChar_isDigit h2, if_true,
    digitVal_digitChar h1, digitVal_digitChar h2]
  congr 1
  rw [Prod.mk.injEq]
  exact ⟨by omega, rfl⟩

theorem readYear4_pad4 (y : Nat) (h : y < 10000) (rest : List Char) :
    readYear4 (pad4 y ++ rest) = some (y, rest) := by
  have h1 : y / 1000 % 10 < 10 := Nat.mod_lt _ (by norm_num)
  have h2 : y / 100 % 10 < 10 := Nat.mod_lt _ (by norm_num)
  have h3 : y / 10 % 10 < 10 := Nat.mod_lt _ (by norm_num)
  have h4 : y % 10 < 10 := Nat.mod_lt _ (by norm_num)
  simp only [pad4, List.cons_append, List.nil_append, readYear4,
    digitChar_isDigit h1, digitChar_isDigit h2, digitChar_isDigit h3,
    digitChar_isDigit h4, Bool.and_self, if_true,
    digitVal_digitChar h1, digitVal_digitChar h2, digitVal_digitChar h3,
    digitVal_digitChar h4]
  congr 1
  rw [Prod.mk.injEq]
  exact ⟨by omega, rfl⟩

theorem readNum2_pad2_nil (n : Nat) (h : n < 100) :
    readNum2 (pad2 n) = some (n, []) := by
  have h2 := readNum2_pad2 n h []
  simpa using h2

theorem expectChar_cons (c : Char) (rest : List Char) :
    expectChar c (c :: rest) = some rest := by
  simp [expectChar]

theorem monthrange_days_le_31 (y m : Nat) : monthrange_days y m ≤ 31 := by
  unfold monthrange_days
  split <;> first | omega | (split <;> omega)

/-- Formatting a valid instant with `strftime("%Y-%m-%d %H:%M:%S")` and
parsing it back with `strptime` recovers the instant. -/
theorem parseTimestamp_formatTimestamp (t : Timestamp) (hv : ValidTimestamp t) :
    parseTimestamp (formatTimestamp t) = some t := by
  obtain ⟨h1000, h9999, hm1, hm12, hd1, hdm, hh, hmin, hsec⟩ := hv
  have hd100 : t.day < 100 := by
    have := monthrange_days_le_31 t.year t.month
    omega
  unfold formatTimestamp parseTimestamp
  simp only [readYear4_pad4 t.year (by omega),
    expectChar_cons, readNum2_pad2 t.month (by omega),
    readNum2_pad2 t.day hd100, readNum2_pad2 t.hour (by omega),
    readNum2_pad2 t.minute (by omega), readNum2_pad2_nil t.second (by omega)]
  rw [if_pos ⟨rfl, by omega, hm1, hm12, hd1, hdm, hh, hmin, hsec⟩]

/-- C10: a persisted line with exactly 3 fields (name, parseable amount,
category) loads as a record whose timestamp is the load-time wall clock
formatted `YYYY-MM-DD HH:MM:SS`; that string parses back to the load
instant, so the record always passes the summarizer's timestamp filter for
the load-time month and year. -/
theorem C10_default_timestamp (now : Timestamp) (rawLine : List Char)
    (hv : ValidTimestamp now)
    (h3 : (splitSep ',' (strip rawLine)).length = 3)
    (q : ℚ)
    (hq : parseAmount ((splitSep ',' (strip rawLine)).getD 1 []) = some q) :
    parseLine now rawLine = some
      ⟨(splitSep ',' (strip rawLine)).getD 0 [],
        (splitSep ',' (strip rawLine)).getD 2 [], q, formatTimestamp now⟩ ∧
    parseTimestamp (formatTimestamp now) = some now ∧
    (∀ e : Expense, e.timestamp = formatTimestamp now →
      keepExpense (some now.month) (some now.year) e = true) := by
  have hne : (strip rawLine).isEmpty = false := by
    rcases hstrip : strip rawLine with _ | ⟨c, rest⟩
    · rw [hstrip] at h3
      simp [splitSep] at h3
    · rfl
  have hrt : parseTimestamp (formatTimestamp now) = some now :=
    parseTimestamp_formatTimestamp now hv
  refine ⟨?_, hrt, ?_⟩
  · unfold parseLine
    rw [if_neg (by rw [hne]; simp), if_pos (by omega), hq]
    have h4 : ¬((splitSep ',' (strip rawLine)).length ≥ 4) := by omega
    rw [if_neg h4]
    unfold mkExpense
    rfl
  · intro e he
    unfold keepExpense
    rw [he, hrt]
    simp

/-- C10 witness: the theorem applied to the 3-field line
`"Lunch,150.00,🍔 Food"` at a concrete load instant. -/
theorem C10_default_timestamp_witness :
    ∃ q, parseAmount
        ((splitSep ',' (strip "Lunch,150.00,🍔 Food".data)).getD 1 []) = some q ∧
      parseLine ⟨2024, 3, 6, 12, 30, 45⟩ "Lunch,150.00,🍔 Food".data =
        some ⟨(splitSep ',' (strip "Lunch,150.00,🍔 Food".data)).getD 0 [],
          (splitSep ',' (strip "Lunch,150.00,🍔 Food".data)).getD 2 [], q,
          formatTimestamp ⟨2024, 3, 6, 12, 30, 45⟩⟩ ∧
      parseTimestamp (formatTimestamp ⟨2024, 3, 6, 12, 30, 45⟩) =
        some ⟨2024, 3, 6, 12, 30, 45⟩ := by
  refine ⟨_, rfl, ?_, ?_⟩
  · exact (C10_default_timestamp ⟨2024, 3, 6, 12, 30, 45⟩
      "Lunch,150.00,🍔 Food".data (by decide) (by decide) _ rfl).1
  · exact (C10_default_timestamp ⟨2024, 3, 6, 12, 30, 45⟩
      "Lunch,150.00,🍔 Food".data (by decide) (by decide) _ rfl).2.1

/-! ## Split/join and strip lemmas for the round trip -/

theorem splitSep_ne_nil (sep : Char) (l : List Char) : splitSep sep l ≠ [] := by
  cases l with
  | nil => simp [splitSep]
  | cons c rest =>
    unfold splitSep
    split <;> split <;> simp

theorem splitSep_no_sep (sep : Char) (f : List Char) (h : sep ∉ f) :
    splitSep sep f = [f] := by
  induction f with
  | nil => rfl
  | cons c rest ih =>
    have hc : c ≠ sep := fun he => h (he ▸ List.mem_cons_self c rest)
    have hrest : sep ∉ rest := fun hm => h (List.mem_cons_of_mem c hm)
    unfold splitSep
    rw [ih hrest]
    simp [hc]

theorem splitSep_append (sep : Char) (f t : List Char) (h : sep ∉ f) :
    splitSep sep (f ++ sep :: t) = f :: splitSep sep t := by
  induction f with
  | nil =>
    simp only [List.nil_append]
    conv_lhs => rw [splitSep]
    rcases hsp : splitSep sep t with _ | ⟨g, gs⟩
    · exact absurd hsp (splitSep_ne_nil sep t)
    · simp
  | cons c rest ih =>
    have hc : c ≠ sep := fun he => h (he ▸ List.mem_cons_self c rest)
    have hrest : sep ∉ rest := fun hm => h (List.mem_cons_of_mem c hm)
    simp only [List.cons_append]
    conv_lhs => rw [splitSep]
    rw [ih hrest]
    simp [hc]

theorem strip_eq_self (l : List Char)
    (h1 : ∀ c, l.head? = some c → isWS c = false)
    (h2 : ∀ c, l.getLast? = some c → isWS c = false) :
    strip l = l := by
  have e1 : l.dropWhile isWS = l := by
    cases l with
    | nil => rfl
    | cons c rest =>
      rw [List.dropWhile_cons, if_neg (by simp [h1 c rfl])]
  unfold strip
  rw [e1]
  have e2 : l.reverse.dropWhile isWS = l.reverse := by
    cases hrev : l.reverse with
    | nil => rfl
    | cons c rest =>
      have hc : l.getLast? = some c := by
        rw [← List.head?_reverse, hrev]
        rfl
      rw [List.dropWhile_cons, if_neg (by simp [h2 c hc])]
  rw [e2, List.reverse_reverse]

theorem isWS_false_of_isDigit {c : Char} (h : c.isDigit = true) :
    isWS c = false := by
  by_cases hw : isWS c = true
  · exfalso
    unfold isWS at hw
    simp only [Bool.or_eq_true, beq_iff_eq] at hw
    rcases hw with ((((h1 | h1) | h1) | h1) | h1) | h1 <;> subst h1 <;>
      exact absurd h (by decide)
  · exact Bool.eq_false_iff.mpr hw

theorem ne_of_isDigit {c : Char} (h : c.isDigit = true) :
    c ≠ ',' ∧ c ≠ '.' ∧ c ≠ '\n' := by
  refine ⟨?_, ?_, ?_⟩ <;> (intro he; subst he; exact absurd h (by decide))

/-! ## Decimal numeral round-trip lemmas -/

theorem decCharsVal_snoc (xs : List Char) (c : Char) :
    decCharsVal (xs ++ [c]) = decCharsVal xs * 10 + digitVal c := by
  unfold decCharsVal
  rw [List.foldl_append]
  rfl

theorem decCharsVal_rev_digits (ds : List ℕ) (h : ∀ d ∈ ds, d < 10) :
    decCharsVal ((ds.reverse).map Nat.digitChar) = Nat.ofDigits 10 ds := by
  induction ds with
  | nil => rfl
  | cons d ds ih =>
    rw [List.reverse_cons, List.map_append, List.map_cons, List.map_nil,
      decCharsVal_snoc, ih (fun x hx => h x (List.mem_cons_of_mem _ hx)),
      digitVal_digitChar (h d (List.mem_cons_self _ _)), Nat.ofDigits_cons]
    ring

theorem natDigitsRev_ofDigits : ∀ fuel n : Nat, n ≤ fuel →
    Nat.ofDigits 10 (natDigitsRev fuel n) = n := by
  intro fuel
  induction fuel with
  | zero =>
    intro n h
    interval_cases n
    rfl
  | succ fuel ih =>
    intro n h
    unfold natDigitsRev
    by_cases h0 : n = 0
    · rw [if_pos h0, Nat.ofDigits_nil, h0]
    · rw [if_neg h0, Nat.ofDigits_cons, ih (n / 10) (by omega)]
      omega

theorem natDigitsRev_lt (fuel : Nat) : ∀ n d, d ∈ natDigitsRev fuel n → d < 10 := by
  induction fuel with
  | zero =>
    intro n d hd
    simp [natDigitsRev] at hd
  | succ fuel ih =>
    intro n d hd
    unfold natDigitsRev at hd
    by_cases h0 : n = 0
    · rw [if_pos h0] at hd
      simp at hd
    · rw [if_neg h0] at hd
      rcases List.mem_cons.mp hd with h | h
      · rw [h]
        exact Nat.mod_lt _ (by norm_num)
      · exact ih _ _ h

theorem decCharsVal_natToChars (n : Nat) : decCharsVal (natToChars n) = n := by
  unfold natToChars
  by_cases h0 : n = 0
  · rw [if_pos h0, h0]
    decide
  · rw [if_neg h0, decCharsVal_rev_digits _ (natDigitsRev_lt n n),
      natDigitsRev_ofDigits n n le_rfl]

theorem natToChars_all_digit (n : Nat) : ∀ c ∈ natToChars n, c.isDigit = true := by
  unfold natToChars
  by_cases h0 : n = 0
  · rw [if_pos h0]
    intro c hc
    rw [List.mem_singleton] at hc
    rw [hc]
    decide
  · rw [if_neg h0]
    intro c hc
    obtain ⟨d, hd, hdc⟩ := List.mem_map.mp hc
    rw [← hdc]
    exact digitChar_isDigit (natDigitsRev_lt n n d (List.mem_reverse.mp hd))

theorem natToChars_ne_nil (n : Nat) : natToChars n ≠ [] := by
  unfold natToChars
  by_cases h0 : n = 0
  · rw [if_pos h0]
    simp
  · rw [if_neg h0]
    cases n with
    | zero => exact absurd rfl h0
    | succ m =>
      unfold natDigitsRev
      rw [if_neg h0]
      simp

theorem decCharsVal_pad2 (m : Nat) (h : m < 100) : decCharsVal (pad2 m) = m := by
  have h1 : m / 10 % 10 < 10 := Nat.mod_lt _ (by norm_num)
  have h2 : m % 10 < 10 := Nat.mod_lt _ (by norm_num)
  unfold pad2 decCharsVal
  simp only [List.foldl_cons, List.foldl_nil, digitVal_digitChar h1,
    digitVal_digitChar h2]
  omega

theorem pad2_all_digit (m : Nat) : ∀ c ∈ pad2 m, c.isDigit = true := by
  intro c hc
  unfold pad2 at hc
  rcases List.mem_cons.mp hc with h | h
  · rw [h]
    exact digitChar_isDigit (Nat.mod_lt _ (by norm_num))
  · rw [List.mem_singleton] at h
    rw [h]
    exact digitChar_isDigit (Nat.mod_lt _ (by norm_num))

theorem mem_of_getLast?_eq {l : List Char} {c : Char} (h : l.getLast? = some c) :
    c ∈ l := by
  obtain ⟨hne, he⟩ := List.mem_getLast?_eq_getLast (show c ∈ l.getLast? from by
    rw [h]; rfl)
  rw [he]
  exact List.getLast_mem hne

theorem formatCents_chars (c : ℤ) :
    ∀ x ∈ formatCents c, x.isDigit = true ∨ x = '-' ∨ x = '.' := by
  intro x hx
  unfold formatCents centsChars at hx
  rcases List.mem_append.mp hx with h | h
  · split at h
    · right
      left
      simpa using h
    · simp at h
  · rcases List.mem_append.mp h with h2 | h2
    · left
      exact natToChars_all_digit _ _ h2
    · rcases List.mem_cons.mp h2 with h3 | h3
      · right
        right
        exact h3
      · left
        exact pad2_all_digit _ _ h3

theorem formatCents_no_sep (c : ℤ) : ',' ∉ formatCents c ∧ '\n' ∉ formatCents c := by
  constructor <;> intro hmem <;>
    rcases formatCents_chars c _ hmem with h | h | h <;> exact absurd h (by decide)

theorem strip_formatCents (c : ℤ) : strip (formatCents c) = formatCents c := by
  apply strip_eq_self
  · intro x hx
    have hmem : x ∈ formatCents c :=
      List.mem_of_mem_head? (show x ∈ (formatCents c).head? from by rw [hx]; rfl)
    rcases formatCents_chars c x hmem with h | h | h
    · exact isWS_false_of_isDigit h
    · rw [h]
      decide
    · rw [h]
      decide
  · intro x hx
    have hmem : x ∈ formatCents c := mem_of_getLast?_eq hx
    rcases formatCents_chars c x hmem with h | h | h
    · exact isWS_false_of_isDigit h
    · rw [h]
      decide
    · rw [h]
      decide

theorem parseUnsigned_eq_pair (u ip fp : List Char)
    (h : splitSep '.' u = [ip, fp]) :
    parseUnsigned u =
      if (!ip.isEmpty || !fp.isEmpty) && ip.all Char.isDigit &&
          fp.all Char.isDigit then
        some ((decCharsVal ip : ℚ) + (decCharsVal fp : ℚ) / (10 : ℚ) ^ fp.length)
      else none := by
  unfold parseUnsigned
  rw [h]

theorem parseAmount_eq (s : List Char) (c : Char) (r : List Char)
    (h : strip s = c :: r) :
    parseAmount s =
      if c = '-' then (parseUnsigned r).map (fun v => -v)
      else if c = '+' then parseUnsigned r
      else parseUnsigned (c :: r) := by
  unfold parseAmount
  rw [h]

theorem parseUnsigned_centsChars (n : Nat) :
    parseUnsigned (centsChars n) = some ((n : ℚ) / 100) := by
  have hdot1 : '.' ∉ natToChars (n / 100) := fun hm =>
    absurd (natToChars_all_digit _ _ hm) (by decide)
  have hdot2 : '.' ∉ pad2 (n % 100) := fun hm =>
    absurd (pad2_all_digit _ _ hm) (by decide)
  have hsplit : splitSep '.' (centsChars n) =
      [natToChars (n / 100), pad2 (n % 100)] := by
    unfold centsChars
    rw [splitSep_append '.' _ _ hdot1, splitSep_no_sep '.' _ hdot2]
  have hipne : (natToChars (n / 100)).isEmpty = false :=
    List.isEmpty_eq_false.mpr (natToChars_ne_nil _)
  have hcond : ((!(natToChars (n / 100)).isEmpty || !(pad2 (n % 100)).isEmpty) &&
      (natToChars (n / 100)).all Char.isDigit &&
      (pad2 (n % 100)).all Char.isDigit) = true := by
    rw [hipne, List.all_eq_true.mpr (natToChars_all_digit _),
      List.all_eq_true.mpr (pad2_all_digit _)]
    rfl
  rw [parseUnsigned_eq_pair _ _ _ hsplit, if_pos hcond, decCharsVal_natToChars,
    decCharsVal_pad2 _ (Nat.mod_lt _ (by norm_num))]
  have hlen : (pad2 (n % 100)).length = 2 := rfl
  rw [hlen]
  have hmod := Nat.div_add_mod n 100
  have h2 : ((100 * (n / 100) + n % 100 : ℕ) : ℚ) = (n : ℚ) := by
    exact_mod_cast congrArg (fun k : ℕ => (k : ℚ)) hmod
  push_cast at h2
  congr 1
  field_simp
  linarith

theorem parseAmount_formatCents (c : ℤ) :
    parseAmount (formatCents c) = some ((c : ℚ) / 100) := by
  by_cases hneg : c < 0
  · have hfc : formatCents c = '-' :: centsChars c.natAbs := by
      unfold formatCents
      rw [if_pos hneg]
      rfl
    have hstrip : strip (formatCents c) = '-' :: centsChars c.natAbs := by
      rw [strip_formatCents, hfc]
    rw [parseAmount_eq _ _ _ hstrip, if_pos rfl]
    rw [parseUnsigned_centsChars]
    have hcast : ((c.natAbs : ℚ)) = -(c : ℚ) := by
      have h2 : ((c.natAbs : ℤ) : ℚ) = ((-c : ℤ) : ℚ) :=
        congrArg _ (Int.ofNat_natAbs_of_nonpos (le_of_lt hneg))
      rw [Int.cast_neg, Int.cast_natCast] at h2
      exact h2
    rw [Option.map_some', hcast]
    congr 1
    ring
  · have hfc : formatCents c = centsChars c.natAbs := by
      unfold formatCents
      rw [if_neg hneg]
      rfl
    obtain ⟨hd, tl, heq⟩ : ∃ hd tl, centsChars c.natAbs = hd :: tl := by
      rcases hcc : centsChars c.natAbs with _ | ⟨hd, tl⟩
      · exfalso
        unfold centsChars at hcc
        exact natToChars_ne_nil _ (List.append_eq_nil.mp hcc).1
      · exact ⟨hd, tl, rfl⟩
    have hdig : hd.isDigit = true := by
      have hh : (centsChars c.natAbs).head? = (natToChars (c.natAbs / 100)).head? := by
        unfold centsChars
        rw [List.head?_append]
        rcases hnc : natToChars (c.natAbs / 100) with _ | ⟨a, as⟩
        · exact absurd hnc (natToChars_ne_nil _)
        · rfl
      have hmem : hd ∈ natToChars (c.natAbs / 100) := by
        apply List.mem_of_mem_head?
        show hd ∈ (natToChars (c.natAbs / 100)).head?
        rw [← hh, heq]
        rfl
      exact natToChars_all_digit _ _ hmem
    have hne1 : hd ≠ '-' := fun he => absurd hdig (by rw [he]; decide)
    have hne2 : hd ≠ '+' := fun he => absurd hdig (by rw [he]; decide)
    have hstrip : strip (formatCents c) = hd :: tl := by
      rw [strip_formatCents, hfc, heq]
    rw [parseAmount_eq _ _ _ hstrip, if_neg hne1, if_neg hne2, ← heq,
      parseUnsigned_centsChars]
    have hcast : ((c.natAbs : ℚ)) = (c : ℚ) := by
      have h2 : ((c.natAbs : ℤ) : ℚ) = (c : ℚ) :=
        congrArg _ (Int.natAbs_of_nonneg (not_lt.mp hneg))
      rw [Int.cast_natCast] at h2
      exact h2
    rw [hcast]

theorem parseAmount_formatAmount (q : ℚ) :
    parseAmount (formatAmount q) = some (round2 q) := by
  unfold formatAmount round2
  exact parseAmount_formatCents (roundCents q)

theorem parseLine_expenseLine (now : Timestamp) (e : Expense)
    (hnc : ',' ∉ e.name) (hcc : ',' ∉ e.category) (htc : ',' ∉ e.timestamp)
    (hh : ∀ c, e.name.head? = some c → isWS c = false)
    (htne : e.timestamp ≠ [])
    (htl : ∀ c, e.timestamp.getLast? = some c → isWS c = false) :
    parseLine now (expenseLine e) = some { e with amount := round2 e.amount } := by
  have hfa_nc : ',' ∉ formatAmount e.amount := (formatCents_no_sep _).1
  have hsplit : splitSep ',' (expenseLine e) =
      [e.name, formatAmount e.amount, e.category, e.timestamp] := by
    unfold expenseLine
    rw [splitSep_append ',' _ _ hnc, splitSep_append ',' _ _ hfa_nc,
      splitSep_append ',' _ _ hcc, splitSep_no_sep ',' _ htc]
  have hne : expenseLine e ≠ [] := by
    unfold expenseLine
    intro habs
    have h2 := (List.append_eq_nil.mp habs).2
    simp at h2
  have hstrip : strip (expenseLine e) = expenseLine e := by
    apply strip_eq_self
    · intro x hx
      unfold expenseLine at hx
      rw [List.head?_append, List.head?_cons] at hx
      rcases hn : e.name.head? with _ | a
      · rw [hn, Option.none_or] at hx
        injection hx with hx2
        rw [← hx2]
        decide
      · rw [hn] at hx
        have hx2 : some a = some x := hx
        injection hx2 with hx3
        exact hx3 ▸ hh a hn
    · intro x hx
      unfold expenseLine at hx
      rw [List.getLast?_append_of_ne_nil _ (by simp), ← List.singleton_append,
        List.getLast?_append_of_ne_nil _ (by simp),
        List.getLast?_append_of_ne_nil _ (by simp), ← List.singleton_append,
        List.getLast?_append_of_ne_nil _ (by simp),
        List.getLast?_append_of_ne_nil _ (by simp), ← List.singleton_append,
        List.getLast?_append_of_ne_nil _ htne] at hx
      exact htl x hx
  unfold parseLine
  rw [hstrip]
  rw [if_neg (by rw [List.isEmpty_eq_false.mpr hne]; exact Bool.false_ne_true)]
  rw [hsplit]
  rw [if_pos (by simp)]
  have hgd1 : [e.name, formatAmount e.amount, e.category, e.timestamp].getD 1 [] =
      formatAmount e.amount := rfl
  rw [hgd1, parseAmount_formatAmount]
  rw [if_pos (by simp)]
  have hgd0 : [e.name, formatAmount e.amount, e.category, e.timestamp].getD 0 [] =
      e.name := rfl
  have hgd2 : [e.name, formatAmount e.amount, e.category, e.timestamp].getD 2 [] =
      e.category := rfl
  have hgd3 : [e.name, formatAmount e.amount, e.category, e.timestamp].getD 3 [] =
      e.timestamp := rfl
  rw [hgd0, hgd2, hgd3]
  unfold mkExpense
  simp [List.isEmpty_eq_false.mpr htne]

theorem expenseLine_no_newline (e : Expense)
    (h1 : '\n' ∉ e.name) (h2 : '\n' ∉ e.category) (h3 : '\n' ∉ e.timestamp) :
    '\n' ∉ expenseLine e := by
  intro hmem
  unfold expenseLine at hmem
  rcases List.mem_append.mp hmem with h | h
  · exact h1 h
  · rcases List.mem_cons.mp h with h | h
    · exact absurd h (by decide)
    · rcases List.mem_append.mp h with h | h
      · exact (formatCents_no_sep _).2 h
      · rcases List.mem_cons.mp h with h | h
        · exact absurd h (by decide)
        · rcases List.mem_append.mp h with h | h
          · exact h2 h
          · rcases List.mem_cons.mp h with h | h
            · exact absurd h (by decide)
            · exact h3 h

/-- C7 (amended): writing a record sequence with `save_all_expenses` and
loading the destination back recovers the sequence with each amount
rounded to 2 decimals, provided no field contains the comma separator OR
a newline, the name does not begin with whitespace, and the timestamp is
non-empty and does not end with whitespace (the loader strips each line
and treats an empty timestamp field as missing, so those records would
not survive unchanged). -/
theorem C7_round_trip (es : List Expense) (now : Timestamp)
    (h : ∀ e ∈ es,
      (',' ∉ e.name ∧ ',' ∉ e.category ∧ ',' ∉ e.timestamp) ∧
      ('\n' ∉ e.name ∧ '\n' ∉ e.category ∧ '\n' ∉ e.timestamp) ∧
      (∀ c, e.name.head? = some c → isWS c = false) ∧
      e.timestamp ≠ [] ∧
      (∀ c, e.timestamp.getLast? = some c → isWS c = false)) :
    load_expenses (some (save_all_expenses es)) now =
      es.map (fun e => { e with amount := round2 e.amount }) := by
  induction es with
  | nil => rfl
  | cons e rest ih =>
    obtain ⟨⟨hnc, hcc, htc⟩, ⟨hn1, hn2, hn3⟩, hh, htne, htl⟩ :=
      h e (List.mem_cons_self _ _)
    have hrest := fun x hx => h x (List.mem_cons_of_mem _ hx)
    have hsave : save_all_expenses (e :: rest) =
        expenseLine e ++ '\n' :: save_all_expenses rest := by
      unfold save_all_expenses
      rw [List.map_cons, List.flatten_cons, List.append_assoc,
        List.singleton_append]
    have hload : ∀ content, load_expenses (some content) now =
        (splitSep '\n' content).filterMap (parseLine now) := fun _ => rfl
    rw [hload, hsave,
      splitSep_append '\n' _ _ (expenseLine_no_newline e hn1 hn2 hn3),
      List.filterMap_cons,
      parseLine_expenseLine now e hnc hcc htc hh htne htl,
      ← hload, ih hrest, List.map_cons]

/-- C7 counterexample: a record whose name begins with a space breaks the
round trip as originally stated (no proviso beyond "no field contains a
comma"), because the loader strips each line, so the loaded record's name
loses the leading space. -/
theorem C7_counterexample :
    load_expenses (some (save_all_expenses
        [⟨" a".data, "c".data, 1, "2024-01-05 10:00:00".data⟩]))
        ⟨2024, 1, 6, 0, 0, 0⟩ ≠
      [(⟨" a".data, "c".data, 1, "2024-01-05 10:00:00".data⟩ : Expense)].map
        (fun e => { e with amount := round2 e.amount }) := by
  have hrc : roundCents (1 : ℚ) = 100 := by norm_num [roundCents]
  have hfa : formatAmount (1 : ℚ) = '1' :: '.' :: '0' :: '0' :: [] := by
    rw [formatAmount, hrc]
    decide
  have hsave : save_all_expenses
      [⟨" a".data, "c".data, 1, "2024-01-05 10:00:00".data⟩] =
      " a,1.00,c,2024-01-05 10:00:00\n".data := by
    unfold save_all_expenses expenseLine
    rw [List.map_cons]
    rw [hfa]
    decide
  intro heq
  have hname := congrArg (List.map Expense.name) heq
  rw [hsave] at hname
  revert hname
  decide

/-- C7 witness (for the amended claim): a clean record survives the round
trip with its amount rounded to two decimals. -/
theorem C7_round_trip_witness :
    load_expenses (some (save_all_expenses
        [⟨"Lunch".data, "🍔 Food".data, 150, "2024-03-05 12:00:00".data⟩]))
        ⟨2024, 3, 6, 0, 0, 0⟩ =
      [⟨"Lunch".data, "🍔 Food".data, round2 150, "2024-03-05 12:00:00".data⟩] := by
  have h := C7_round_trip
      [⟨"Lunch".data, "🍔 Food".data, 150, "2024-03-05 12:00:00".data⟩]
      ⟨2024, 3, 6, 0, 0, 0⟩ ?hyp
  · rw [h]
    rfl
  case hyp =>
    intro e he
    rw [List.mem_singleton] at he
    subst he
    refine ⟨⟨by decide, by decide, by decide⟩, ⟨by decide, by decide, by decide⟩,
      ?_, by decide, ?_⟩
    · intro c hc
      have hc2 : some 'L' = some c := hc
      injection hc2 with hc3
      rw [← hc3]
      decide
    · intro c hc
      have hc2 : some '0' = some c := hc
      injection hc2 with hc3
      rw [← hc3]
      decide

end ExpenseTracker
